import Mathlib

/-!
Verification development for the okx/reth XLayer extensions.

The Lean definitions in this file are shallow embeddings of the Rust sources:

* `src/crates/revm/src/xlayer_innertx_inspector.rs` and
  `src/crates/ethereum/evm/src/xlayer_innertx_inspector.rs`
  (inner-transaction inspector; the two siblings differ only in how
  `new_index` is computed in `before_op`, so the embedding is parameterised
  by that computation),
* `src/crates/rpc/rpc-eth-types/src/legacy.rs`
  (cross-boundary filter manager),
* `src/crates/rpc/rpc-eth-types/src/legacy_init.rs`
  (legacy RPC component initialization),
* `src/crates/apollo/src/client.rs`
  (remote-config cache update and lookup).

Machine integers (`u64`) are modelled as `Nat`; the places where Rust
subtraction can underflow are modelled explicitly (either as an `Option`
result, or with the wrapping semantics of release builds, as noted at each
definition).  External collaborators that are not part of this repository
(the revm interpreter driving the hooks, the jsonrpsee HTTP client builder,
the YAML parser) are modelled as explicit inputs: hook-event lists, a
builder oracle, and an already-parsed key/value mapping.
-/

namespace XLayer

/-! ## Inner-transaction inspector

Embeds `InnerTx`, `InnerTxMeta`, `InnerTxInspector`, `before_op`, `after_op`
and the `Inspector` trait hooks from
`src/crates/revm/src/xlayer_innertx_inspector.rs` (and the sibling file
`src/crates/ethereum/evm/src/xlayer_innertx_inspector.rs`).
Addresses are modelled as `Nat`, byte strings as `List Nat`,
`U256` values as `Nat` (no arithmetic is performed on them). -/

/-- Addresses (`alloy_primitives::Address`) modelled as naturals. -/
abbrev Addr := Nat

/-- `Nat` rendered as lowercase hexadecimal, as Rust `format!("{:x}", value)`. -/
def hexOfNat (n : Nat) : String := String.mk (Nat.toDigits 16 n)

/-- Inner transaction record (struct `InnerTx`).  The Rust fields `from` and `to` are
renamed `from_addr` and `to_addr` because `from` and `to` are Lean keywords. -/
structure InnerTx where
  depth : Nat
  internal_index : Nat
  call_type : String
  name : String
  trace_address : List Nat
  code_address : Option Addr
  from_addr : Addr
  to_addr : Option Addr
  input : List Nat
  output : List Nat
  is_error : Bool
  gas : Nat
  gas_used : Nat
  value : Nat
  value_wei : String
  call_value_wei : String
  error : Option String
deriving DecidableEq

/-- `HashMap<u64, u64>` modelled as an association list: `insert` conses a
binding in front, `get` takes the first matching binding (so later inserts
shadow earlier ones, as in the hash map). -/
def mapInsert (m : List (Nat × Nat)) (k v : Nat) : List (Nat × Nat) := (k, v) :: m

/-- Lookup in the association-list model of `HashMap<u64, u64>`. -/
def mapGet : List (Nat × Nat) → Nat → Option Nat
  | [], _ => none
  | (k', v) :: rest, k => if k' = k then some v else mapGet rest k

/-- Metadata for tracking inner transactions (struct `InnerTxMeta`). -/
structure InnerTxMeta where
  index : Nat
  last_depth : Nat
  index_map : List (Nat × Nat)
  inner_txs : List InnerTx
deriving DecidableEq

/-- The inspector state (struct `InnerTxInspector`).  `call_stack` is a Rust
`Vec` used as a stack (`push`/`pop` at the end); it is modelled with the top
of the stack at the head of the list. -/
structure InnerTxInspector where
  inner_tx_meta : InnerTxMeta
  current_depth : Nat
  call_stack : List (InnerTx × Nat)
deriving DecidableEq

/-- `InnerTxInspector::new()` / `Default::default()`. -/
def InnerTxInspector.new : InnerTxInspector :=
  { inner_tx_meta := { index := 0, last_depth := 0, index_map := [], inner_txs := [] },
    current_depth := 0,
    call_stack := [] }

/-- The trace-address/name loop of `before_op`:
`for i in 1..=last_depth { if let Some(&idx) = index_map.get(&i) { push idx; name += "_{idx}" } }`. -/
def buildTrace (index_map : List (Nat × Nat)) (last_depth : Nat) : List Nat × String :=
  (List.range last_depth).foldl
    (fun acc i =>
      match mapGet index_map (i + 1) with
      | some idx => (acc.1 ++ [idx], acc.2 ++ "_" ++ toString idx)
      | none => acc)
    ([], "")

/-- The `new_index` computation of `before_op` in
`src/crates/revm/src/xlayer_innertx_inspector.rs` line 147:
`inner_txs.len().checked_sub(1).map_or(0, |x| x)`, which on `Nat` is exactly
truncated subtraction by one. -/
def revmNewIndex (len : Nat) : Nat := len - 1

/-- The `new_index` computation of `before_op` in
`src/crates/ethereum/evm/src/xlayer_innertx_inspector.rs` line 201:
`inner_txs.len()` (taken before the push). -/
def evmNewIndex (len : Nat) : Nat := len

/-- `InnerTxInspector::before_op`, parameterised by the sibling-specific
`new_index` computation `ni`.  Returns the in-flight record, `new_index`,
and the updated inspector state (the record pushed onto `inner_txs` is a
clone of the returned record, exactly as in the Rust code). -/
def before_op (ni : Nat → Nat) (st : InnerTxInspector) (call_type : String)
    (from_addr : Addr) (to_addr code_address : Option Addr) (input : List Nat)
    (gas : Nat) (value : Nat) : InnerTx × Nat × InnerTxInspector :=
  let meta := st.inner_tx_meta
  let meta :=
    if st.current_depth = meta.last_depth then
      { meta with
        index := meta.index + 1,
        index_map := mapInsert meta.index_map st.current_depth (meta.index + 1) }
    else if st.current_depth < meta.last_depth then
      let idx := (mapGet meta.index_map st.current_depth).getD 0 + 1
      { meta with
        index := idx,
        index_map := mapInsert meta.index_map st.current_depth idx,
        last_depth := st.current_depth }
    else
      { meta with
        index := 0,
        index_map := mapInsert meta.index_map st.current_depth 0,
        last_depth := st.current_depth }
  let tn := buildTrace meta.index_map meta.last_depth
  let inner_tx : InnerTx :=
    { depth := st.current_depth,
      internal_index := meta.index,
      call_type := call_type,
      name := call_type ++ tn.2,
      trace_address := tn.1,
      code_address := code_address,
      from_addr := from_addr,
      to_addr := to_addr,
      input := input,
      output := [],
      is_error := false,
      gas := gas,
      gas_used := 0,
      value := value,
      value_wei := toString value,
      call_value_wei := "0x" ++ hexOfNat value,
      error := none }
  let new_index := ni meta.inner_txs.length
  (inner_tx, new_index,
    { st with inner_tx_meta := { meta with inner_txs := meta.inner_txs ++ [inner_tx] } })

/-- `iter_mut().skip(i)` marking of `after_op`: set `is_error := true` on
every record at position `≥ i`. -/
def markErrorsFrom : List InnerTx → Nat → List InnerTx
  | [], _ => []
  | itx :: rest, 0 => { itx with is_error := true } :: markErrorsFrom rest 0
  | itx :: rest, n + 1 => itx :: markErrorsFrom rest n

/-- `InnerTxInspector::after_op`.  Note that `inner_tx` is the record value
popped from the call stack: the Rust code mutates this local value (and,
on error, the `is_error` flags of the stored records); the updated local
record is returned as the first component. -/
def after_op (op_type : String) (gas_used : Nat) (new_index : Nat)
    (inner_tx : InnerTx) (addr : Option Addr) (err : Option String)
    (ret : List Nat) (st : InnerTxInspector) : InnerTx × InnerTxInspector :=
  let inner_tx := { inner_tx with gas_used := gas_used, output := ret }
  let r :=
    match err with
    | some error_msg =>
        ({ inner_tx with error := some error_msg },
         { st with inner_tx_meta :=
            { st.inner_tx_meta with
              inner_txs := markErrorsFrom st.inner_tx_meta.inner_txs new_index } })
    | none => (inner_tx, st)
  let inner_tx := r.1
  let inner_tx :=
    if op_type = "create" ∨ op_type = "create2" then
      match addr with
      | some a => { inner_tx with to_addr := some a }
      | none => inner_tx
    else inner_tx
  (inner_tx, r.2)

/-- `revm::interpreter::CallScheme`. -/
inductive CallScheme where
  | call
  | callcode
  | delegatecall
  | staticcall
deriving DecidableEq

/-- The call-type string derived from a `CallScheme` (the `match` in `call`
and `call_end`, or `AsSchemeStr::as_str` in the ethereum/evm sibling). -/
def CallScheme.as_str : CallScheme → String
  | .call => "call"
  | .callcode => "callcode"
  | .delegatecall => "delegatecall"
  | .staticcall => "staticcall"

/-- `revm::context::CreateScheme` (the fields of `Create2`/`Custom` are not
used by the inspector). -/
inductive CreateScheme where
  | create
  | create2
  | custom
deriving DecidableEq

/-- The create-type string derived from a `CreateScheme`. -/
def CreateScheme.as_str : CreateScheme → String
  | .create => "create"
  | .create2 => "create2"
  | .custom => "custom"

/-- One inspector hook invocation, carrying the data the hook reads from its
arguments.  `callEnter`'s `transfer_value` is the result of
`inputs.transfer_value()` (absent for static calls).  The exit events carry
the `gas_limit` and scheme of the frame's `inputs` (revm passes the same
`CallInputs`/`CreateInputs` to the enter and exit hooks) together with the
outcome data: `remaining` is `outcome.result.gas.remaining()`, `is_err` is
`outcome.result.is_error()`, `err_msg` is the debug rendering of the outcome
used by `format!("{:?}", ..)`, `output` is `outcome.result.output`, and for
creates `address` is `outcome.address`. -/
inductive HookEvent where
  | initInterp : HookEvent
  | callEnter (scheme : CallScheme) (caller target bytecode : Addr)
      (input : List Nat) (gas_limit : Nat) (transfer_value : Option Nat) : HookEvent
  | callExit (scheme : CallScheme) (gas_limit remaining : Nat)
      (is_err : Bool) (err_msg : String) (output : List Nat) : HookEvent
  | createEnter (scheme : CreateScheme) (caller : Addr) (init_code : List Nat)
      (gas_limit : Nat) (value : Nat) : HookEvent
  | createExit (scheme : CreateScheme) (gas_limit remaining : Nat)
      (is_err : Bool) (err_msg : String) (output : List Nat)
      (address : Option Addr) : HookEvent
  | selfdestructEvent (contract target : Addr) (value : Nat) : HookEvent
deriving DecidableEq

/-- The `current_depth -= 1` at the end of `call_end`/`create_end`:
`current_depth` is a `u64`, so decrementing it at `0` is an arithmetic
underflow (a panic in debug builds); that failure is modelled as `none`. -/
def decDepth (st : InnerTxInspector) : Option InnerTxInspector :=
  if st.current_depth = 0 then none
  else some { st with current_depth := st.current_depth - 1 }

/-- One step of the inspector: the effect of a single hook invocation on the
inspector state, parameterised by the sibling-specific `new_index`
computation `ni`.  `none` models a panicking `u64` subtraction
(`inputs.gas_limit - outcome.result.gas.remaining()` when the remaining gas
exceeds the limit, or the `current_depth` decrement at depth `0`); every
other path is total, and the hooks never produce an error value for the
caller (`call`/`create` always return `None`). -/
def step (ni : Nat → Nat) (st : InnerTxInspector) : HookEvent → Option InnerTxInspector
  | .initInterp => some { st with current_depth := 1 }
  | .callEnter scheme caller target bytecode input gas_limit tv =>
      let st := { st with current_depth := st.current_depth + 1 }
      let r := before_op ni st (CallScheme.as_str scheme) caller (some target)
        (some bytecode) input gas_limit (tv.getD 0)
      some { r.2.2 with call_stack := (r.1, r.2.1) :: r.2.2.call_stack }
  | .callExit scheme gas_limit remaining is_err err_msg output =>
      match st.call_stack with
      | [] => decDepth st
      | (itx, new_index) :: rest =>
          if remaining ≤ gas_limit then
            let gas_used := gas_limit - remaining
            let err := if is_err then some err_msg else none
            let r := after_op (CallScheme.as_str scheme) gas_used new_index itx
              none err output { st with call_stack := rest }
            decDepth r.2
          else none
  | .createEnter scheme caller init_code gas_limit value =>
      let st := { st with current_depth := st.current_depth + 1 }
      let r := before_op ni st (CreateScheme.as_str scheme) caller none none
        init_code gas_limit value
      some { r.2.2 with call_stack := (r.1, r.2.1) :: r.2.2.call_stack }
  | .createExit scheme gas_limit remaining is_err err_msg output address =>
      match st.call_stack with
      | [] => decDepth st
      | (itx, new_index) :: rest =>
          if remaining ≤ gas_limit then
            let gas_used := gas_limit - remaining
            let err := if is_err then some err_msg else none
            let r := after_op (CreateScheme.as_str scheme) gas_used new_index itx
              address err output { st with call_stack := rest }
            decDepth r.2
          else none
  | .selfdestructEvent contract target value =>
      let r := before_op ni st "suicide" contract (some target) none [] 0 value
      let r2 := after_op "suicide" 0 r.2.1 r.1 none none [] r.2.2
      some r2.2

/-- Run the inspector over a list of hook events, propagating a panic
(`none`) if any step panics. -/
def runHooks (ni : Nat → Nat) (st : InnerTxInspector) : List HookEvent → Option InnerTxInspector
  | [] => some st
  | e :: rest =>
      match step ni st e with
      | some st' => runHooks ni st' rest
      | none => none

/-! ## Cross-boundary filter manager

Embeds `FilterType`, `FilterMetadata`, `CrossBoundaryFilterManager` and its
methods from `src/crates/rpc/rpc-eth-types/src/legacy.rs`, together with the
`alloy_rpc_types_eth` filter types they operate on (`BlockNumberOrTag`,
`FilterBlockOption`, `Filter`, `Log`); the alloy getters and setters
(`get_from_block`, `get_to_block`, `with_from_block`, `with_to_block`,
`Filter::from_block`, `Filter::to_block`) are embedded from the alloy
sources, since `parse_block_range` and `split_filter` go through them.
Block hashes are modelled as `Nat`; a `Log`'s fields other than
`block_number`/`transaction_index`/`log_index` (the only ones `merge_logs`
reads) are collapsed into an opaque `payload`. -/

/-- `alloy_rpc_types_eth::BlockNumberOrTag`. -/
inductive BlockNumberOrTag where
  | number (n : Nat)
  | latest
  | finalized
  | safe
  | earliest
  | pending
deriving DecidableEq

/-- `alloy_rpc_types_eth::FilterBlockOption`. -/
inductive FilterBlockOption where
  | range (from_block to_block : Option BlockNumberOrTag)
  | atBlockHash (hash : Nat)
deriving DecidableEq

/-- `FilterBlockOption::get_from_block`: `None` for `AtBlockHash`. -/
def FilterBlockOption.get_from_block : FilterBlockOption → Option BlockNumberOrTag
  | .range fb _ => fb
  | .atBlockHash _ => none

/-- `FilterBlockOption::get_to_block`: `None` for `AtBlockHash`. -/
def FilterBlockOption.get_to_block : FilterBlockOption → Option BlockNumberOrTag
  | .range _ tb => tb
  | .atBlockHash _ => none

/-- `FilterBlockOption::with_from_block`: always produces a `Range`,
keeping the old `to_block` only when the receiver was a `Range`. -/
def FilterBlockOption.with_from_block (bo : FilterBlockOption)
    (b : BlockNumberOrTag) : FilterBlockOption :=
  .range (some b) (match bo with | .range _ tb => tb | .atBlockHash _ => none)

/-- `FilterBlockOption::with_to_block`: always produces a `Range`,
keeping the old `from_block` only when the receiver was a `Range`. -/
def FilterBlockOption.with_to_block (bo : FilterBlockOption)
    (b : BlockNumberOrTag) : FilterBlockOption :=
  .range (match bo with | .range fb _ => fb | .atBlockHash _ => none) (some b)

/-- `alloy_rpc_types_eth::Filter` (the `address` and `topics` filter sets are
modelled opaquely; the manager only clones them). -/
structure Filter where
  block_option : FilterBlockOption
  address : List Addr
  topics : List (List Nat)
deriving DecidableEq

/-- `Filter::from_block`. -/
def Filter.fromBlockSet (f : Filter) (b : BlockNumberOrTag) : Filter :=
  { f with block_option := f.block_option.with_from_block b }

/-- `Filter::to_block`. -/
def Filter.toBlockSet (f : Filter) (b : BlockNumberOrTag) : Filter :=
  { f with block_option := f.block_option.with_to_block b }

/-- `alloy_rpc_types_eth::Log` restricted to the fields `merge_logs` reads;
all remaining fields are collapsed into the opaque `payload`. -/
structure Log where
  block_number : Option Nat
  transaction_index : Option Nat
  log_index : Option Nat
  payload : Nat
deriving DecidableEq

/-- `FilterType`. -/
inductive FilterType where
  | pureLegacy
  | pureLocal
  | hybrid
deriving DecidableEq

/-- `FilterMetadata` (filter ids modelled as `Nat`). -/
structure FilterMetadata where
  original_filter : Filter
  filter_type : FilterType
  legacy_id : Option Nat
  local_id : Option Nat
deriving DecidableEq

/-- `CrossBoundaryFilterManager` (the `filters` map as an association list,
`next_id` a plain counter; the `Arc<RwLock<..>>` wrappers carry no logic). -/
structure CrossBoundaryFilterManager where
  cutoff_block : Nat
  filters : List (Nat × FilterMetadata)
  next_id : Nat
deriving DecidableEq

/-- `CrossBoundaryFilterManager::new`. -/
def CrossBoundaryFilterManager.new (cutoff_block : Nat) : CrossBoundaryFilterManager :=
  { cutoff_block := cutoff_block, filters := [], next_id := 1 }

/-- `u64::MAX`. -/
def u64MAX : Nat := 2 ^ 64 - 1

/-- `CrossBoundaryFilterManager::parse_block_range`:
`Number` maps to itself, `Earliest` to `0`, and
`Latest`/`Pending`/`Finalized`/`Safe`/absent to `u64::MAX`.
The function always returns `Ok`. -/
def CrossBoundaryFilterManager.parse_block_range
    (_self : CrossBoundaryFilterManager) (filter : Filter) :
    Except String (Nat × Nat) :=
  let fb :=
    match filter.block_option.get_from_block with
    | some (.number n) => n
    | some .earliest => 0
    | some .latest | some .pending | some .finalized | some .safe | none => u64MAX
  let tb :=
    match filter.block_option.get_to_block with
    | some (.number n) => n
    | some .earliest => 0
    | some .latest | some .pending | some .finalized | some .safe | none => u64MAX
  Except.ok (fb, tb)

/-- `CrossBoundaryFilterManager::classify_filter`. -/
def CrossBoundaryFilterManager.classify_filter
    (self : CrossBoundaryFilterManager) (filter : Filter) :
    Except String FilterType :=
  match self.parse_block_range filter with
  | .error e => .error e
  | .ok (fb, tb) =>
      if tb < self.cutoff_block then .ok .pureLegacy
      else if fb ≥ self.cutoff_block then .ok .pureLocal
      else .ok .hybrid

/-- Wrapping `u64` decrement, the release-build semantics of the Rust
expression `self.cutoff_block - 1` (in debug builds the subtraction panics
at `0`; either way the result is not `cutoff_block - 1` when
`cutoff_block = 0`). -/
def u64sub1 (n : Nat) : Nat := (n + (2 ^ 64 - 1)) % 2 ^ 64

/-- `CrossBoundaryFilterManager::split_filter`: legacy copy gets
`to_block = cutoff_block - 1`, local copy gets `from_block = cutoff_block`,
via the alloy setters (which in particular turn an `AtBlockHash` filter into
a `Range` filter). -/
def CrossBoundaryFilterManager.split_filter
    (self : CrossBoundaryFilterManager) (filter : Filter) : Filter × Filter :=
  let legacy_filter := filter.toBlockSet (.number (u64sub1 self.cutoff_block))
  let local_filter := filter.fromBlockSet (.number self.cutoff_block)
  (legacy_filter, local_filter)

/-- Rust `Ord::cmp` on `u64`. -/
def cmpNat (a b : Nat) : Ordering :=
  if a < b then .lt else if b < a then .gt else .eq

/-- Rust `Ord::cmp` on `Option<u64>`: `None` is least. -/
def cmpOptNat : Option Nat → Option Nat → Ordering
  | none, none => .eq
  | none, some _ => .lt
  | some _, none => .gt
  | some a, some b => cmpNat a b

/-- The comparator closure of `merge_logs`:
`a.block_number.cmp(..).then(a.transaction_index.cmp(..)).then(a.log_index.cmp(..))`. -/
def cmpLog (a b : Log) : Ordering :=
  ((cmpOptNat a.block_number b.block_number).then
    (cmpOptNat a.transaction_index b.transaction_index)).then
    (cmpOptNat a.log_index b.log_index)

/-- The non-strict order induced by the `merge_logs` comparator
(`cmp a b ≠ Greater`), used as the `mergeSort` predicate. -/
def logLe (a b : Log) : Bool :=
  match cmpLog a b with
  | .gt => false
  | _ => true

/-- `CrossBoundaryFilterManager::merge_logs`: appends `local_logs` after
`legacy_logs` and applies `Vec::sort_by` with the comparator above.
`sort_by` is a stable ascending sort, denoted here by `List.mergeSort`
(which is stable) with the comparator's non-strict order. -/
def CrossBoundaryFilterManager.merge_logs
    (_self : CrossBoundaryFilterManager) (legacy_logs local_logs : List Log) :
    List Log :=
  (legacy_logs ++ local_logs).mergeSort logLe

/-! ## Legacy RPC initialization

Embeds `LegacyRpcConfig`, `LegacyRpcClient::from_config`,
`LegacyRpcComponents` and `init_legacy_rpc_components` from
`src/crates/rpc/rpc-eth-types/src/legacy.rs` and
`src/crates/rpc/rpc-eth-types/src/legacy_init.rs`.
The jsonrpsee `HttpClientBuilder::build` call is external to this
repository; it is modelled as an explicit oracle
`build : endpoint → timeout → Except err client` (clients as `Nat`
handles), and the definitions are parameterised by it. -/

/-- `LegacyRpcConfig` (the timeout `Duration` modelled as `Nat`). -/
structure LegacyRpcConfig where
  cutoff_block : Nat
  endpoint : String
  timeout : Nat
deriving DecidableEq

/-- `LegacyRpcClient` (the inner `HttpClient` as an opaque `Nat` handle). -/
structure LegacyRpcClient where
  client : Nat
  cutoff_block : Nat
deriving DecidableEq

/-- `LegacyRpcClient::from_config`: builds the HTTP client from
`config.endpoint` with `config.timeout` (propagating the builder's error
with `?`) and pairs it with `config.cutoff_block`. -/
def LegacyRpcClient.from_config (build : String → Nat → Except String Nat)
    (config : LegacyRpcConfig) : Except String LegacyRpcClient :=
  match build config.endpoint config.timeout with
  | .ok c => .ok { client := c, cutoff_block := config.cutoff_block }
  | .error e => .error e

/-- `LegacyRpcComponents`. -/
structure LegacyRpcComponents where
  client : Option LegacyRpcClient
  filter_manager : Option CrossBoundaryFilterManager
deriving DecidableEq

/-- `LegacyRpcComponents::empty`. -/
def LegacyRpcComponents.empty : LegacyRpcComponents :=
  { client := none, filter_manager := none }

/-- `LegacyRpcComponents::is_enabled`. -/
def LegacyRpcComponents.is_enabled (c : LegacyRpcComponents) : Bool :=
  c.client.isSome

/-- `init_legacy_rpc_components`: `None` config gives empty components; with
a config, a successful `from_config` yields populated components, and a
failed one logs a warning and returns empty components (the function's
return type carries no error). -/
def init_legacy_rpc_components (build : String → Nat → Except String Nat)
    (config : Option LegacyRpcConfig) : LegacyRpcComponents :=
  match config with
  | none => LegacyRpcComponents.empty
  | some cfg =>
      match LegacyRpcClient.from_config build cfg with
      | .ok client =>
          { client := some client,
            filter_manager := some (CrossBoundaryFilterManager.new cfg.cutoff_block) }
      | .error _ => LegacyRpcComponents.empty

/-! ## Apollo remote-config cache

Embeds the cache-updating and cache-reading logic of
`src/crates/apollo/src/client.rs`: `ApolloClient::update_cache_from_config`
(its per-entry insertion loop; YAML parsing is external, so the definition
takes the already-parsed key/value mapping — on a parse failure the Rust
code leaves the cache unchanged) and `ApolloClient::get_cached_config`.
The cache `HashMap<String, JsonValue>` is an association list with
newest-first lookup; `JsonValue`s are modelled opaquely as `Nat`. -/

/-- `HashMap::insert` on the cache: later inserts shadow earlier ones. -/
def cacheInsert (cache : List (String × Nat)) (k : String) (v : Nat) :
    List (String × Nat) := (k, v) :: cache

/-- `HashMap::get` on the cache. -/
def cacheGet : List (String × Nat) → String → Option Nat
  | [], _ => none
  | (k', v) :: rest, k => if k' = k then some v else cacheGet rest k

/-- `ApolloClient::update_cache_from_config` after a successful YAML parse:
`for (key, value) in parsed_config { cache_write.insert(key, value); }` —
each entry is inserted under the bare parsed `key`; the `namespace`
argument (`ns`) is used only for logging, not for the cache key. -/
def update_cache_from_config (cache : List (String × Nat)) (ns : String)
    (parsed_config : List (String × Nat)) : List (String × Nat) :=
  let _ := ns
  parsed_config.foldl (fun c kv => cacheInsert c kv.1 kv.2) cache

/-- `ApolloClient::get_cached_config`:
`cache.get(&format!("{}:{}", namespace, key)).cloned()`. -/
def get_cached_config (cache : List (String × Nat)) (ns key : String) :
    Option Nat :=
  cacheGet cache (ns ++ ":" ++ key)

/-! ## Claim C1 -/

/-- A balanced hook sequence with one successful outer call frame that
errors, followed by a create frame whose outcome carries address `7`:
call frame (caller 1, target 2, bytecode 3, input `[1]`, gas 100, value 5)
exits with remaining gas 40, an error rendered as `"revert"` and output
`[9]`; create frame (caller 1, init code `[2]`, gas 50) exits successfully
with remaining gas 20, output `[8]` and address `7`. -/
def c1Events : List HookEvent :=
  [ .callEnter .call 1 2 3 [1] 100 (some 5),
    .callExit .call 100 40 true "revert" [9],
    .createEnter .create 1 [2] 50 0,
    .createExit .create 50 20 false "" [8] (some 7) ]

/-- C1: evaluation of the code at the failing input.  The claim says the
record stored in `inner_txs` for an exited frame has `output` equal to the
outcome's output, `gas_used = gas_limit - remaining`, `error` set on an
error outcome, and `to` set to the outcome's address for creates.  Running
`c1Events`, the stored call record keeps `output = []`, `gas_used = 0`,
`error = none` (only `is_error` is set), and the stored create record keeps
`to = none` even though the outcome carried address `7`: `after_op` mutates
the record value popped from `call_stack`, a clone that is dropped, not the
record stored in `inner_txs`. -/
theorem c1_exit_updates_lost_eval :
    ((runHooks revmNewIndex InnerTxInspector.new c1Events).map
        (fun st => st.inner_tx_meta.inner_txs.map
          (fun r => (r.output, r.gas_used, r.error, r.to_addr, r.is_error))))
      = some [([], 0, none, some 2, true), ([], 0, none, none, false)] := by
  rfl

/-! ## Claim C2 -/

/-- A balanced hook sequence with two sibling call frames at the same depth:
the first completes successfully, the second fails. -/
def c2Events : List HookEvent :=
  [ .callEnter .call 1 2 3 [] 100 (some 0),
    .callExit .call 100 50 false "" [],
    .callEnter .call 1 4 5 [] 100 (some 0),
    .callExit .call 100 0 true "out of gas" [] ]

/-- C2: evaluation of both siblings at the failing input.  The failing
frame's position (the length of `inner_txs` just before its record was
pushed) is `1`, so the claim demands that exactly the records at positions
`≥ 1` are marked and the surviving earlier sibling at position `0` stays
unmarked.  The ethereum/evm sibling (`new_index = len()`) marks exactly
`[false, true]`, but the revm sibling computes
`new_index = len().checked_sub(1).map_or(0, id) = 0` and also marks the
surviving earlier sibling: `[true, true]`. -/
theorem c2_error_marking_eval :
    ((runHooks revmNewIndex InnerTxInspector.new c2Events).map
        (fun st => st.inner_tx_meta.inner_txs.map (fun r => r.is_error)))
      = some [true, true]
    ∧ ((runHooks evmNewIndex InnerTxInspector.new c2Events).map
        (fun st => st.inner_tx_meta.inner_txs.map (fun r => r.is_error)))
      = some [false, true] := by
  exact ⟨by decide, by decide⟩

/-! ## Claim C3 -/

/-- C3: evaluation of the code at the failing input.  The refresh path
parses the YAML document of namespace `"ns"` into the mapping
`k ↦ 42` and `update_cache_from_config` stores the entry under the bare
key `"k"`, while `get_cached_config "ns" "k"` looks up the concatenated key
`"ns:k"`: the read misses (`none`), contradicting the claimed
read-after-write through the `{namespace}:{key}` format. -/
theorem c3_cache_key_eval :
    get_cached_config (update_cache_from_config [] "ns" [("k", 42)]) "ns" "k" = none
    ∧ cacheGet (update_cache_from_config [] "ns" [("k", 42)]) "k" = some 42 := by
  exact ⟨by decide, by decide⟩

/-! ## Claim C7 -/

/-- Two sequential executions through one inspector instance: a first
execution (one top-level call frame, entered and exited), then the second
execution's top-level call enter; `initialize_interp` fires when the second
frame's interpreter is initialized, after the `call` hook, as revm invokes
it. -/
def c7EventsEnterFirst : List HookEvent :=
  [ .callEnter .call 1 2 3 [] 100 (some 0),
    .callExit .call 100 50 false "" [],
    .callEnter .call 1 2 3 [] 100 (some 0),
    .initInterp ]

/-- The same two executions with `initialize_interp` fired before the second
execution's top-level `call` hook. -/
def c7EventsInitFirst : List HookEvent :=
  [ .callEnter .call 1 2 3 [] 100 (some 0),
    .callExit .call 100 50 false "" [],
    .initInterp,
    .callEnter .call 1 2 3 [] 100 (some 0) ]

/-- C7: counterexample.  The claim says that after re-initialization via
`initialize_interp` the second execution's records start at `depth = 1`
with `internal_index = 0`.  In fact `initialize_interp` resets only
`current_depth`: whichever way the re-initialization is ordered against the
second execution's first `call` hook, the second record is never
`(depth, internal_index) = (1, 0)` — it is `(1, 1)` (the sibling counter at
depth 1 persists from the first execution) or `(2, 0)`. -/
theorem c7_reset_counterexample :
    ((runHooks revmNewIndex InnerTxInspector.new c7EventsEnterFirst).map
        (fun st => st.inner_tx_meta.inner_txs.map
          (fun r => (r.depth, r.internal_index))))
      = some [(1, 0), (1, 1)]
    ∧ ((runHooks revmNewIndex InnerTxInspector.new c7EventsInitFirst).map
        (fun st => st.inner_tx_meta.inner_txs.map
          (fun r => (r.depth, r.internal_index))))
      = some [(1, 0), (2, 0)] := by
  exact ⟨by decide, by decide⟩

/-- C7: the amended claim.  `initialize_interp` sets `current_depth = 1`
and resets nothing else — `inner_tx_meta` (the `index`/`last_depth`/
`index_map` index-tracking state and the accumulated `inner_txs`) and
`call_stack` are unchanged, in both siblings (the hook bodies are
identical).  Consequently a second execution's first depth-1 record
continues the sibling numbering of the first execution
(`internal_index = 1`, not `0`), as the concrete run shows. -/
theorem c7_reset_amended :
    (∀ (ni : Nat → Nat) (st : InnerTxInspector),
        step ni st .initInterp = some { st with current_depth := 1 })
    ∧ ((runHooks revmNewIndex InnerTxInspector.new c7EventsEnterFirst).map
        (fun st => st.inner_tx_meta.inner_txs.map
          (fun r => (r.depth, r.internal_index))))
      = some [(1, 0), (1, 1)] := by
  exact ⟨fun _ _ => rfl, by decide⟩

/-! ## Claim C4 -/

/-- C4: counterexample.  The claim says classification of a filter whose
block selector is only a block hash returns a classification error; in fact
`classify_filter` returns `Ok(PureLocal)` (`parse_block_range` maps the
absent from/to of an `AtBlockHash` selector to `u64::MAX`). -/
theorem c4_hash_filter_counterexample :
    (CrossBoundaryFilterManager.new 1000000).classify_filter
        { block_option := .atBlockHash 42, address := [], topics := [] }
      = .ok .pureLocal := by
  rfl

/-- C4: the amended claim.  For every filter whose block selector is only a
block hash, `parse_block_range` returns `Ok (u64::MAX, u64::MAX)` and
`classify_filter` returns `Ok PureLocal` for every cutoff (no
classification error is ever produced; both functions are total and
`Err`-free). -/
theorem c4_hash_filter_amended (h : Nat) (addr : List Addr)
    (topics : List (List Nat)) (cutoff : Nat) (hc : cutoff ≤ u64MAX) :
    (CrossBoundaryFilterManager.new cutoff).parse_block_range
        { block_option := .atBlockHash h, address := addr, topics := topics }
      = .ok (u64MAX, u64MAX)
    ∧ (CrossBoundaryFilterManager.new cutoff).classify_filter
        { block_option := .atBlockHash h, address := addr, topics := topics }
      = .ok .pureLocal := by
  refine ⟨rfl, ?_⟩
  simp only [CrossBoundaryFilterManager.classify_filter,
    CrossBoundaryFilterManager.parse_block_range, CrossBoundaryFilterManager.new,
    FilterBlockOption.get_from_block, FilterBlockOption.get_to_block]
  rw [if_neg (by omega), if_pos (by omega)]

/-- C4: witness for the amended claim at hash `42`, cutoff `1000000`. -/
theorem c4_hash_filter_amended_witness :
    (1000000 : Nat) ≤ u64MAX
    ∧ ((CrossBoundaryFilterManager.new 1000000).parse_block_range
          { block_option := .atBlockHash 42, address := [], topics := [] }
        = .ok (u64MAX, u64MAX)
      ∧ (CrossBoundaryFilterManager.new 1000000).classify_filter
          { block_option := .atBlockHash 42, address := [], topics := [] }
        = .ok .pureLocal) :=
  ⟨by decide, c4_hash_filter_amended 42 [] [] 1000000 (by decide)⟩

/-! ## Claim C5 -/

/-- C5: counterexample.  First conjunct: at `cutoff = 0` the legacy copy's
`to_block` is `Number (2^64 - 1)` (the wrapping result of the `u64`
expression `cutoff_block - 1`), not `cutoff − 1`.  Second conjunct: a
block-hash-valued filter is split all the same — the hash is discarded and
both copies become `Range` filters — contradicting the claim that such a
filter is never split. -/
theorem c5_split_counterexample :
    ((CrossBoundaryFilterManager.new 0).split_filter
        { block_option := .range (some (.number 10)) (some (.number 20)),
          address := [1], topics := [[2]] }).1.block_option
      = .range (some (.number 10)) (some (.number (2 ^ 64 - 1)))
    ∧ (CrossBoundaryFilterManager.new 5).split_filter
        { block_option := .atBlockHash 7, address := [1], topics := [[2]] }
      = ({ block_option := .range none (some (.number 4)), address := [1], topics := [[2]] },
         { block_option := .range (some (.number 5)) none, address := [1], topics := [[2]] }) := by
  exact ⟨by decide, by decide⟩

/-- C5: the amended claim.  For every cutoff with `1 ≤ cutoff ≤ u64::MAX`:
a range-valued filter is split into a legacy copy with
`to_block = Number (cutoff − 1)` (and the original `from_block`) and a
local copy with `from_block = Number cutoff` (and the original `to_block`),
both preserving the address and topic sets; a block-hash-valued filter is
split as well, with its hash discarded: the legacy copy is the range
`(None, Number (cutoff − 1))` and the local copy the range
`(Number cutoff, None)`, again preserving address and topics. -/
theorem c5_split_amended (fb tb : Option BlockNumberOrTag) (h : Nat)
    (addr : List Addr) (topics : List (List Nat)) (cutoff : Nat)
    (h1 : 1 ≤ cutoff) (h2 : cutoff ≤ u64MAX) :
    (CrossBoundaryFilterManager.new cutoff).split_filter
        { block_option := .range fb tb, address := addr, topics := topics }
      = ({ block_option := .range fb (some (.number (cutoff - 1))),
           address := addr, topics := topics },
         { block_option := .range (some (.number cutoff)) tb,
           address := addr, topics := topics })
    ∧ (CrossBoundaryFilterManager.new cutoff).split_filter
        { block_option := .atBlockHash h, address := addr, topics := topics }
      = ({ block_option := .range none (some (.number (cutoff - 1))),
           address := addr, topics := topics },
         { block_option := .range (some (.number cutoff)) none,
           address := addr, topics := topics }) := by
  have hpow : (2 : Nat) ^ 64 = 18446744073709551616 := by norm_num
  have hs : u64sub1 cutoff = cutoff - 1 := by
    unfold u64sub1
    unfold u64MAX at h2
    rw [hpow] at h2 ⊢
    omega
  constructor <;>
    simp [CrossBoundaryFilterManager.split_filter, CrossBoundaryFilterManager.new,
      Filter.toBlockSet, Filter.fromBlockSet, FilterBlockOption.with_to_block,
      FilterBlockOption.with_from_block, hs]

/-- C5: witness for the amended claim at the boundary-scenario filter
`from = 999000, to = 1001000` with `cutoff = 1000000`, and hash `7`. -/
theorem c5_split_amended_witness :
    ((1 : Nat) ≤ 1000000 ∧ (1000000 : Nat) ≤ u64MAX)
    ∧ ((CrossBoundaryFilterManager.new 1000000).split_filter
          { block_option := .range (some (.number 999000)) (some (.number 1001000)),
            address := [1], topics := [[2]] }
        = ({ block_option := .range (some (.number 999000)) (some (.number (1000000 - 1))),
             address := [1], topics := [[2]] },
           { block_option := .range (some (.number 1000000)) (some (.number 1001000)),
             address := [1], topics := [[2]] })
      ∧ (CrossBoundaryFilterManager.new 1000000).split_filter
          { block_option := .atBlockHash 7, address := [1], topics := [[2]] }
        = ({ block_option := .range none (some (.number (1000000 - 1))),
             address := [1], topics := [[2]] },
           { block_option := .range (some (.number 1000000)) none,
             address := [1], topics := [[2]] })) :=
  ⟨⟨by decide, by decide⟩,
    c5_split_amended (some (.number 999000)) (some (.number 1001000)) 7 [1] [[2]]
      1000000 (by decide) (by decide)⟩

/-! ## Claim C6 -/

/-- A builder oracle that always fails, modelling
`HttpClientBuilder::build` on a malformed endpoint URL. -/
def failingBuild : String → Nat → Except String Nat :=
  fun _ _ => .error "invalid URL"

/-- C6: counterexample.  The claim says a failed legacy HTTP client
construction surfaces a terminal error propagated to the caller rather than
completing with legacy support silently disabled.  In fact
`init_legacy_rpc_components` has no error channel at all: on a failed
build it logs a warning and returns `LegacyRpcComponents::empty()`, with
`is_enabled = false` — exactly the silently-disabled completion the claim
rules out (the code's own test `test_init_with_invalid_url` asserts this
behaviour). -/
theorem c6_init_counterexample :
    init_legacy_rpc_components failingBuild
        (some { cutoff_block := 1000000, endpoint := "invalid://url", timeout := 30 })
      = LegacyRpcComponents.empty
    ∧ (init_legacy_rpc_components failingBuild
        (some { cutoff_block := 1000000, endpoint := "invalid://url", timeout := 30 })).is_enabled
      = false := by
  exact ⟨rfl, rfl⟩

/-- C6: the amended claim.  Whenever building the legacy HTTP client from
the configuration fails, `init_legacy_rpc_components` completes normally
with empty components (legacy support disabled); no error is propagated to
the caller. -/
theorem c6_init_amended (build : String → Nat → Except String Nat)
    (cfg : LegacyRpcConfig) (e : String)
    (hb : build cfg.endpoint cfg.timeout = .error e) :
    init_legacy_rpc_components build (some cfg) = LegacyRpcComponents.empty := by
  simp [init_legacy_rpc_components, LegacyRpcClient.from_config, hb]

/-- C6: witness for the amended claim with the always-failing builder. -/
theorem c6_init_amended_witness :
    failingBuild "invalid://url" 30 = .error "invalid URL"
    ∧ init_legacy_rpc_components failingBuild
        (some { cutoff_block := 1000000, endpoint := "invalid://url", timeout := 30 })
      = LegacyRpcComponents.empty :=
  ⟨rfl, c6_init_amended failingBuild
    { cutoff_block := 1000000, endpoint := "invalid://url", timeout := 30 }
    "invalid URL" rfl⟩

/-! ## Claim C9 -/

/-- The claim's (and spec's) description of `parse_block_range`'s mapping of
one block selector: `Earliest` to `0`, `Latest`/`Pending`/`Finalized`/
`Safe`/absent to `u64::MAX`, a number to itself.  Stated separately from
the embedded `parse_block_range` so the code can be compared against it. -/
def specTagValue : Option BlockNumberOrTag → Nat
  | some (.number n) => n
  | some .earliest => 0
  | some .latest | some .pending | some .finalized | some .safe | none => u64MAX

/-- C9: for every filter with a numeric-or-tag block range and every cutoff,
`parse_block_range` returns exactly the pair described by the claim
(`Earliest ↦ 0`, `Latest`/`Pending`/`Finalized`/`Safe`/absent ↦ `u64::MAX`),
and classification is `PureLegacy` iff `to < cutoff`, `PureLocal` iff
`to ≥ cutoff ∧ from ≥ cutoff`, and `Hybrid` iff `from < cutoff ≤ to`. -/
theorem c9_classify_spec (fb tb : Option BlockNumberOrTag) (addr : List Addr)
    (topics : List (List Nat)) (cutoff : Nat) :
    (CrossBoundaryFilterManager.new cutoff).parse_block_range
        { block_option := .range fb tb, address := addr, topics := topics }
      = .ok (specTagValue fb, specTagValue tb)
    ∧ ((CrossBoundaryFilterManager.new cutoff).classify_filter
          { block_option := .range fb tb, address := addr, topics := topics }
        = .ok .pureLegacy ↔ specTagValue tb < cutoff)
    ∧ ((CrossBoundaryFilterManager.new cutoff).classify_filter
          { block_option := .range fb tb, address := addr, topics := topics }
        = .ok .pureLocal
        ↔ cutoff ≤ specTagValue tb ∧ cutoff ≤ specTagValue fb)
    ∧ ((CrossBoundaryFilterManager.new cutoff).classify_filter
          { block_option := .range fb tb, address := addr, topics := topics }
        = .ok .hybrid
        ↔ specTagValue fb < cutoff ∧ cutoff ≤ specTagValue tb) := by
  have hp : (CrossBoundaryFilterManager.new cutoff).parse_block_range
      { block_option := .range fb tb, address := addr, topics := topics }
      = .ok (specTagValue fb, specTagValue tb) := by
    rcases fb with _ | (n1 | _ | _ | _ | _) <;> rcases tb with _ | (n2 | _ | _ | _ | _) <;> rfl
  refine ⟨hp, ?_, ?_, ?_⟩ <;>
    · simp only [CrossBoundaryFilterManager.classify_filter, hp]
      simp only [CrossBoundaryFilterManager.new, ge_iff_le]
      split_ifs with h1 h2 <;> simp_all

/-! ## Claim C8 -/

/-- The `(block_number, transaction_index, log_index)` sort key of a log. -/
def keyOf (l : Log) : Option Nat × Option Nat × Option Nat :=
  (l.block_number, l.transaction_index, l.log_index)

/-- Strict order on optional block components with `none` least, as in the
claim (`absent (None) components ordering as least`). -/
def optNatLt : Option Nat → Option Nat → Prop
  | none, none => False
  | none, some _ => True
  | some _, none => False
  | some a, some b => a < b

/-- Non-strict order on optional block components with `none` least. -/
def optNatLe : Option Nat → Option Nat → Prop
  | none, _ => True
  | some _, none => False
  | some a, some b => a ≤ b

/-- Ascending lexicographic order on sort keys, `none` components least:
the claim's reading of "sorted ascending by the key
`(block_number, transaction_index, log_index)`". -/
def keyLe (x y : Option Nat × Option Nat × Option Nat) : Prop :=
  optNatLt x.1 y.1
  ∨ (x.1 = y.1
    ∧ (optNatLt x.2.1 y.2.1 ∨ (x.2.1 = y.2.1 ∧ optNatLe x.2.2 y.2.2)))

/-- Order-embedding of `Option Nat` (with `none` least) into `Nat`. -/
def encOpt : Option Nat → Nat
  | none => 0
  | some n => n + 1

theorem cmpNat_eq_gt_iff {a b : Nat} : cmpNat a b = .gt ↔ b < a := by
  unfold cmpNat
  split_ifs with h1 h2 <;> simp_all
  omega

theorem cmpNat_eq_eq_iff {a b : Nat} : cmpNat a b = .eq ↔ a = b := by
  unfold cmpNat
  split_ifs with h1 h2 <;> simp_all <;> omega

theorem cmpOptNat_eq_enc (a b : Option Nat) :
    cmpOptNat a b = cmpNat (encOpt a) (encOpt b) := by
  cases a <;> cases b <;> simp [cmpOptNat, encOpt, cmpNat, Nat.succ_lt_succ_iff]

theorem optNatLt_iff_enc (a b : Option Nat) :
    optNatLt a b ↔ encOpt a < encOpt b := by
  cases a <;> cases b <;> simp [optNatLt, encOpt]

theorem optNatLe_iff_enc (a b : Option Nat) :
    optNatLe a b ↔ encOpt a ≤ encOpt b := by
  cases a <;> cases b <;> simp [optNatLe, encOpt]

theorem optNat_eq_iff_enc (a b : Option Nat) : a = b ↔ encOpt a = encOpt b := by
  cases a <;> cases b <;> simp [encOpt]

theorem then_eq_gt {o1 o2 : Ordering} :
    o1.then o2 = .gt ↔ o1 = .gt ∨ (o1 = .eq ∧ o2 = .gt) := by
  cases o1 <;> simp [Ordering.then]

theorem then_eq_eq {o1 o2 : Ordering} :
    o1.then o2 = .eq ↔ o1 = .eq ∧ o2 = .eq := by
  cases o1 <;> simp [Ordering.then]

/-- `keyLe` through the `Nat` encoding (used to discharge order facts with
`omega`). -/
theorem keyLe_iff_enc (x y : Option Nat × Option Nat × Option Nat) :
    keyLe x y
    ↔ (encOpt x.1 < encOpt y.1
      ∨ (encOpt x.1 = encOpt y.1
        ∧ (encOpt x.2.1 < encOpt y.2.1
          ∨ (encOpt x.2.1 = encOpt y.2.1 ∧ encOpt x.2.2 ≤ encOpt y.2.2)))) := by
  unfold keyLe
  rw [optNatLt_iff_enc, optNatLt_iff_enc, optNatLe_iff_enc, optNat_eq_iff_enc,
    optNat_eq_iff_enc]

/-- The comparator's non-strict order agrees with the claim's key order. -/
theorem logLe_true_iff (a b : Log) :
    logLe a b = true ↔ keyLe (keyOf a) (keyOf b) := by
  have hm : logLe a b = true ↔ ¬ cmpLog a b = .gt := by
    cases h : cmpLog a b <;> simp [logLe, h]
  rw [hm, cmpLog, cmpOptNat_eq_enc, cmpOptNat_eq_enc, cmpOptNat_eq_enc,
    then_eq_gt, then_eq_gt, then_eq_eq, cmpNat_eq_gt_iff, cmpNat_eq_gt_iff,
    cmpNat_eq_gt_iff, cmpNat_eq_eq_iff, cmpNat_eq_eq_iff,
    keyLe_iff_enc]
  unfold keyOf
  dsimp only
  omega

theorem logLe_trans (a b c : Log) (h1 : logLe a b) (h2 : logLe b c) :
    logLe a c := by
  rw [logLe_true_iff, keyLe_iff_enc] at h1 h2 ⊢
  omega

theorem logLe_total (a b : Log) : logLe a b || logLe b a := by
  rw [Bool.or_eq_true, logLe_true_iff, logLe_true_iff, keyLe_iff_enc,
    keyLe_iff_enc]
  omega

/-- C8: `merge_logs` returns a permutation of the concatenation of its two
inputs with exactly `|L1| + |L2|` entries, sorted ascending by the
`(block_number, transaction_index, log_index)` key with `none` components
least, and stably: for every key value, the entries carrying that key
appear in exactly their concatenation order. -/
theorem c8_merge_logs_spec (m : CrossBoundaryFilterManager) (L1 L2 : List Log) :
    (m.merge_logs L1 L2).Perm (L1 ++ L2)
    ∧ (m.merge_logs L1 L2).length = L1.length + L2.length
    ∧ (m.merge_logs L1 L2).Pairwise (fun a b => keyLe (keyOf a) (keyOf b))
    ∧ ∀ k : Option Nat × Option Nat × Option Nat,
        (m.merge_logs L1 L2).filter (fun l => decide (keyOf l = k))
          = (L1 ++ L2).filter (fun l => decide (keyOf l = k)) := by
  refine ⟨?_, ?_, ?_, ?_⟩
  · exact List.mergeSort_perm (L1 ++ L2) logLe
  · simp [CrossBoundaryFilterManager.merge_logs]
  · exact (List.sorted_mergeSort (fun a b c => logLe_trans a b c) logLe_total
      (L1 ++ L2)).imp (fun h => (logLe_true_iff _ _).mp h)
  · intro k
    have hmem : ∀ a ∈ (L1 ++ L2).filter (fun l => decide (keyOf l = k)),
        keyOf a = k := by
      intro a ha
      simpa using (List.mem_filter.mp ha).2
    have hpw : ((L1 ++ L2).filter (fun l => decide (keyOf l = k))).Pairwise
        (fun a b => logLe a b = true) := by
      apply List.pairwise_of_forall_mem_list
      intro a ha b hb
      rw [logLe_true_iff, hmem a ha, hmem b hb, keyLe_iff_enc]
      omega
    have hsub : List.Sublist ((L1 ++ L2).filter (fun l => decide (keyOf l = k)))
        ((L1 ++ L2).mergeSort logLe) :=
      List.sublist_mergeSort (fun a b c => logLe_trans a b c) logLe_total hpw
        (List.filter_sublist _)
    have hself : ((L1 ++ L2).filter (fun l => decide (keyOf l = k))).filter
        (fun l => decide (keyOf l = k))
        = (L1 ++ L2).filter (fun l => decide (keyOf l = k)) := by
      rw [List.filter_eq_self]
      intro a ha
      simp [hmem a ha]
    have hsub2 := hsub.filter (fun l => decide (keyOf l = k))
    rw [hself] at hsub2
    have hperm := (List.mergeSort_perm (L1 ++ L2) logLe).filter
      (fun l => decide (keyOf l = k))
    exact (hsub2.eq_of_length hperm.length_eq.symm).symm

/-! ## Claim C10 -/

/-- Well-nested frame interiors: each call/create enter hook is paired with
its exit hook (the exit carries the same scheme and the frame's
`gas_limit`, since revm passes the frame's `CallInputs`/`CreateInputs` to
both hooks), the pairs are well nested, the outcome's remaining gas never
exceeds the frame's gas limit, and self-destructs are unpaired terminal
events.  `initialize_interp` events are not admitted here: this grammar
describes the inside of an open frame, where a re-initialization would
reset `current_depth` and make the enclosing exit's depth decrement
underflow (see the C10 counterexample); top-level sequences, where
`initialize_interp` is admitted between complete frames, are described by
`BalancedRun` below. -/
inductive Balanced : List HookEvent → Prop where
  | nil : Balanced []
  | call {s : CallScheme} {caller target bytecode : Addr} {input : List Nat}
      {gas : Nat} {tv : Option Nat} {remaining : Nat} {ie : Bool} {em : String}
      {out : List Nat} {inner rest : List HookEvent} :
      remaining ≤ gas → Balanced inner → Balanced rest →
      Balanced (.callEnter s caller target bytecode input gas tv ::
        (inner ++ .callExit s gas remaining ie em out :: rest))
  | create {s : CreateScheme} {caller : Addr} {ic : List Nat}
      {gas v remaining : Nat} {ie : Bool} {em : String} {out : List Nat}
      {addr : Option Addr} {inner rest : List HookEvent} :
      remaining ≤ gas → Balanced inner → Balanced rest →
      Balanced (.createEnter s caller ic gas v ::
        (inner ++ .createExit s gas remaining ie em out addr :: rest))
  | sd {c t : Addr} {v : Nat} {rest : List HookEvent} :
      Balanced rest → Balanced (.selfdestructEvent c t v :: rest)

/-- The state returned by `after_op` keeps the inspector's `current_depth`
(the function only touches the record and `inner_txs`). -/
theorem after_op_depth (op_type : String) (gas_used new_index : Nat)
    (inner_tx : InnerTx) (addr : Option Addr) (err : Option String)
    (ret : List Nat) (st : InnerTxInspector) :
    (after_op op_type gas_used new_index inner_tx addr err ret st).2.current_depth
      = st.current_depth := by
  unfold after_op
  cases err <;> rfl

/-- Running a concatenation of hook lists runs them in sequence. -/
theorem runHooks_append (ni : Nat → Nat) (l1 l2 : List HookEvent)
    (st : InnerTxInspector) :
    runHooks ni st (l1 ++ l2)
      = match runHooks ni st l1 with
        | some st' => runHooks ni st' l2
        | none => none := by
  induction l1 generalizing st with
  | nil => rfl
  | cons e rest ih =>
      simp only [List.cons_append, runHooks]
      cases step ni st e <;> simp [ih]

/-- `callEnter` always succeeds and increments `current_depth`. -/
theorem step_callEnter (ni : Nat → Nat) (st : InnerTxInspector) (s : CallScheme)
    (c t b : Addr) (i : List Nat) (g : Nat) (tv : Option Nat) :
    ∃ st', step ni st (.callEnter s c t b i g tv) = some st'
      ∧ st'.current_depth = st.current_depth + 1 :=
  ⟨_, rfl, rfl⟩

/-- `createEnter` always succeeds and increments `current_depth`. -/
theorem step_createEnter (ni : Nat → Nat) (st : InnerTxInspector)
    (s : CreateScheme) (c : Addr) (ic : List Nat) (g v : Nat) :
    ∃ st', step ni st (.createEnter s c ic g v) = some st'
      ∧ st'.current_depth = st.current_depth + 1 :=
  ⟨_, rfl, rfl⟩

/-- `selfdestruct` always succeeds and keeps `current_depth`. -/
theorem step_selfdestruct (ni : Nat → Nat) (st : InnerTxInspector)
    (c t : Addr) (v : Nat) :
    ∃ st', step ni st (.selfdestructEvent c t v) = some st'
      ∧ st'.current_depth = st.current_depth :=
  ⟨_, rfl, after_op_depth _ _ _ _ _ _ _ _⟩

/-- `callExit` succeeds and decrements `current_depth` whenever the
remaining gas is at most the frame's gas limit and the depth is positive
(both the empty-stack branch and the pop branch). -/
theorem step_callExit (ni : Nat → Nat) (st : InnerTxInspector) (s : CallScheme)
    (g rem : Nat) (ie : Bool) (em : String) (out : List Nat)
    (hrem : rem ≤ g) (hd : st.current_depth ≠ 0) :
    ∃ st', step ni st (.callExit s g rem ie em out) = some st'
      ∧ st'.current_depth = st.current_depth - 1 := by
  cases hcs : st.call_stack with
  | nil =>
      refine ⟨{ st with current_depth := st.current_depth - 1 }, ?_, rfl⟩
      simp only [step, hcs, decDepth, if_neg hd]
  | cons top rest =>
      obtain ⟨itx, nidx⟩ := top
      have hA := after_op_depth (CallScheme.as_str s) (g - rem) nidx itx none
        (if ie then some em else none) out { st with call_stack := rest }
      simp only [step, hcs, if_pos hrem, decDepth]
      rw [hA, if_neg hd]
      exact ⟨_, rfl, rfl⟩

/-- `createExit` succeeds and decrements `current_depth` under the same
conditions as `callExit`. -/
theorem step_createExit (ni : Nat → Nat) (st : InnerTxInspector)
    (s : CreateScheme) (g rem : Nat) (ie : Bool) (em : String) (out : List Nat)
    (addr : Option Addr) (hrem : rem ≤ g) (hd : st.current_depth ≠ 0) :
    ∃ st', step ni st (.createExit s g rem ie em out addr) = some st'
      ∧ st'.current_depth = st.current_depth - 1 := by
  cases hcs : st.call_stack with
  | nil =>
      refine ⟨{ st with current_depth := st.current_depth - 1 }, ?_, rfl⟩
      simp only [step, hcs, decDepth, if_neg hd]
  | cons top rest =>
      obtain ⟨itx, nidx⟩ := top
      have hA := after_op_depth (CreateScheme.as_str s) (g - rem) nidx itx addr
        (if ie then some em else none) out { st with call_stack := rest }
      simp only [step, hcs, if_pos hrem, decDepth]
      rw [hA, if_neg hd]
      exact ⟨_, rfl, rfl⟩

/-- On a balanced hook sequence the inspector run always succeeds and
restores `current_depth` (the key invariant behind totality: every exit's
depth decrement happens at positive depth, and every gas subtraction is
guarded by the balancedness bound on remaining gas). -/
theorem balanced_runHooks (ni : Nat → Nat) {evs : List HookEvent}
    (h : Balanced evs) :
    ∀ st : InnerTxInspector, ∃ st', runHooks ni st evs = some st'
      ∧ st'.current_depth = st.current_depth := by
  induction h with
  | nil => exact fun st => ⟨st, rfl, rfl⟩
  | @call s caller target bytecode input gas tv remaining ie em out inner rest
      hle hinner hrest ihinner ihrest =>
      intro st
      obtain ⟨st1, hs1, hd1⟩ := step_callEnter ni st s caller target bytecode input gas tv
      obtain ⟨st2, hr2, hd2⟩ := ihinner st1
      have hd2' : st2.current_depth ≠ 0 := by rw [hd2, hd1]; simp
      obtain ⟨st3, hs3, hd3⟩ := step_callExit ni st2 s gas remaining ie em out hle hd2'
      obtain ⟨st4, hr4, hd4⟩ := ihrest st3
      refine ⟨st4, ?_, ?_⟩
      · simp only [runHooks, hs1]
        rw [runHooks_append, hr2]
        simp only [runHooks, hs3, hr4]
      · rw [hd4, hd3, hd2, hd1]
        simp
  | @create s caller ic gas v remaining ie em out addr inner rest
      hle hinner hrest ihinner ihrest =>
      intro st
      obtain ⟨st1, hs1, hd1⟩ := step_createEnter ni st s caller ic gas v
      obtain ⟨st2, hr2, hd2⟩ := ihinner st1
      have hd2' : st2.current_depth ≠ 0 := by rw [hd2, hd1]; simp
      obtain ⟨st3, hs3, hd3⟩ := step_createExit ni st2 s gas remaining ie em out addr hle hd2'
      obtain ⟨st4, hr4, hd4⟩ := ihrest st3
      refine ⟨st4, ?_, ?_⟩
      · simp only [runHooks, hs1]
        rw [runHooks_append, hr2]
        simp only [runHooks, hs3, hr4]
      · rw [hd4, hd3, hd2, hd1]
        simp
  | @sd c t v rest hrest ihrest =>
      intro st
      obtain ⟨st1, hs1, hd1⟩ := step_selfdestruct ni st c t v
      obtain ⟨st2, hr2, hd2⟩ := ihrest st1
      refine ⟨st2, ?_, ?_⟩
      · simp only [runHooks, hs1, hr2]
      · rw [hd2, hd1]

/-- Two nested call frames with balanced enter/exit hooks and remaining gas
(`0`) within each frame's gas limit (`10`), with `initialize_interp` fired
after each frame's enter hook — the order in which revm invokes the hooks,
since every frame's interpreter is initialized after its `call` hook. -/
def c10PanicEvents : List HookEvent :=
  [ .callEnter .call 1 2 3 [] 10 none,
    .initInterp,
    .callEnter .call 1 4 5 [] 10 none,
    .initInterp,
    .callExit .call 10 0 false "" [],
    .callExit .call 10 0 false "" [] ]

/-- `c10PanicEvents` with the `initialize_interp` events removed: the bare
enter/exit skeleton of the same two nested frames. -/
def c10PanicEventsNoInit : List HookEvent :=
  [ .callEnter .call 1 2 3 [] 10 none,
    .callEnter .call 1 4 5 [] 10 none,
    .callExit .call 10 0 false "" [],
    .callExit .call 10 0 false "" [] ]

/-- C10: counterexample.  The claim says the inspector never fails on any
hook sequence with balanced enter/exit hooks and remaining gas within each
frame's gas limit.  On `c10PanicEvents` — balanced enters/exits, bounded
remaining gas, `initialize_interp` interleaved exactly where revm fires it —
both siblings fail: the mid-frame `initialize_interp` resets
`current_depth` to `1`, the inner exit takes it to `0`, and the outer
exit's `current_depth -= 1` underflows (`runHooks` returns `none`, the
modelled `u64` underflow panic of debug builds).  The third and fourth
conjuncts show the same frames without the `initialize_interp` events run
to completion, so the failure is caused by the re-initialization, not by
the enter/exit structure. -/
theorem c10_depth_underflow_counterexample :
    runHooks revmNewIndex InnerTxInspector.new c10PanicEvents = none
    ∧ runHooks evmNewIndex InnerTxInspector.new c10PanicEvents = none
    ∧ (runHooks revmNewIndex InnerTxInspector.new c10PanicEventsNoInit).isSome = true
    ∧ (runHooks evmNewIndex InnerTxInspector.new c10PanicEventsNoInit).isSome = true := by
  exact ⟨rfl, rfl, rfl, rfl⟩

/-- Top-level hook sequences: a sequence of complete, well-nested
call/create frames (with the balancedness and gas bounds of `Balanced` and
no re-initialization inside an open frame), self-destruct events, and
`initialize_interp` events occurring only between complete frames, i.e.
while no frame is open. -/
inductive BalancedRun : List HookEvent → Prop where
  | nil : BalancedRun []
  | init {rest : List HookEvent} :
      BalancedRun rest → BalancedRun (.initInterp :: rest)
  | call {s : CallScheme} {caller target bytecode : Addr} {input : List Nat}
      {gas : Nat} {tv : Option Nat} {remaining : Nat} {ie : Bool} {em : String}
      {out : List Nat} {inner rest : List HookEvent} :
      remaining ≤ gas → Balanced inner → BalancedRun rest →
      BalancedRun (.callEnter s caller target bytecode input gas tv ::
        (inner ++ .callExit s gas remaining ie em out :: rest))
  | create {s : CreateScheme} {caller : Addr} {ic : List Nat}
      {gas v remaining : Nat} {ie : Bool} {em : String} {out : List Nat}
      {addr : Option Addr} {inner rest : List HookEvent} :
      remaining ≤ gas → Balanced inner → BalancedRun rest →
      BalancedRun (.createEnter s caller ic gas v ::
        (inner ++ .createExit s gas remaining ie em out addr :: rest))
  | sd {c t : Addr} {v : Nat} {rest : List HookEvent} :
      BalancedRun rest → BalancedRun (.selfdestructEvent c t v :: rest)

/-- On a top-level sequence the inspector run always succeeds, for any
`new_index` computation. -/
theorem balancedRun_runHooks (ni : Nat → Nat) {evs : List HookEvent}
    (h : BalancedRun evs) :
    ∀ st : InnerTxInspector, ∃ st', runHooks ni st evs = some st' := by
  induction h with
  | nil => exact fun st => ⟨st, rfl⟩
  | @init rest hrest ihrest =>
      intro st
      obtain ⟨st2, hr2⟩ := ihrest { st with current_depth := 1 }
      exact ⟨st2, hr2⟩
  | @call s caller target bytecode input gas tv remaining ie em out inner rest
      hle hinner hrest ihrest =>
      intro st
      obtain ⟨st1, hs1, hd1⟩ := step_callEnter ni st s caller target bytecode input gas tv
      obtain ⟨st2, hr2, hd2⟩ := balanced_runHooks ni hinner st1
      have hd2' : st2.current_depth ≠ 0 := by rw [hd2, hd1]; simp
      obtain ⟨st3, hs3, -⟩ := step_callExit ni st2 s gas remaining ie em out hle hd2'
      obtain ⟨st4, hr4⟩ := ihrest st3
      refine ⟨st4, ?_⟩
      simp only [runHooks, hs1]
      rw [runHooks_append, hr2]
      simp only [runHooks, hs3, hr4]
  | @create s caller ic gas v remaining ie em out addr inner rest
      hle hinner hrest ihrest =>
      intro st
      obtain ⟨st1, hs1, hd1⟩ := step_createEnter ni st s caller ic gas v
      obtain ⟨st2, hr2, hd2⟩ := balanced_runHooks ni hinner st1
      have hd2' : st2.current_depth ≠ 0 := by rw [hd2, hd1]; simp
      obtain ⟨st3, hs3, -⟩ := step_createExit ni st2 s gas remaining ie em out addr hle hd2'
      obtain ⟨st4, hr4⟩ := ihrest st3
      refine ⟨st4, ?_⟩
      simp only [runHooks, hs1]
      rw [runHooks_append, hr2]
      simp only [runHooks, hs3, hr4]
  | @sd c t v rest hrest ihrest =>
      intro st
      obtain ⟨st1, hs1, -⟩ := step_selfdestruct ni st c t v
      obtain ⟨st2, hr2⟩ := ihrest st1
      refine ⟨st2, ?_⟩
      simp only [runHooks, hs1, hr2]

/-- C10: the amended claim.  On every hook sequence made of balanced
call/create enter-exit pairs (remaining gas at most the frame's gas limit),
self-destructs, and `initialize_interp` events occurring only outside open
frames, both sibling inspectors are total: every hook handler succeeds —
the `gas_used` subtraction, the `current_depth` decrement and the
empty-stack pop branch never panic — and the run produces a state, never an
error (the `call`/`create` hooks' return value is the constant `None`, and
`runHooks` has no outcome other than a state or the panic modelled by
`none`).  The restriction on `initialize_interp` placement is forced: with
a re-initialization inside an open frame the depth decrement underflows
(`c10_depth_underflow_counterexample`). -/
theorem c10_inspector_total_amended (evs : List HookEvent) (h : BalancedRun evs)
    (st : InnerTxInspector) :
    (runHooks revmNewIndex st evs).isSome ∧ (runHooks evmNewIndex st evs).isSome := by
  obtain ⟨s1, h1⟩ := balancedRun_runHooks revmNewIndex h st
  obtain ⟨s2, h2⟩ := balancedRun_runHooks evmNewIndex h st
  rw [h1, h2]
  exact ⟨rfl, rfl⟩

/-- A concrete top-level sequence: a re-initialization, then a call frame
containing a failing create frame, then a self-destruct. -/
def c10RunEvents : List HookEvent :=
  [ .initInterp,
    .callEnter .call 1 2 3 [] 10 none,
    .createEnter .create 1 [] 8 0,
    .createExit .create 8 2 true "oog" [] none,
    .callExit .call 10 4 false "" [],
    .selfdestructEvent 1 2 0 ]

/-- C10: witness, applying the amended totality theorem to `c10RunEvents`. -/
theorem c10_inspector_total_amended_witness :
    BalancedRun c10RunEvents
    ∧ ((runHooks revmNewIndex InnerTxInspector.new c10RunEvents).isSome
      ∧ (runHooks evmNewIndex InnerTxInspector.new c10RunEvents).isSome) :=
  have hb : BalancedRun c10RunEvents :=
    BalancedRun.init (BalancedRun.call (by decide)
      (Balanced.create (by decide) Balanced.nil Balanced.nil)
      (BalancedRun.sd BalancedRun.nil))
  ⟨hb, c10_inspector_total_amended c10RunEvents hb InnerTxInspector.new⟩

end XLayer
